import Mathlib

/-!
Shallow embedding of `src/algos/dqn.py` (repository NixGD/vpg): the
experience replay ring buffer, the Q-networks, epsilon-greedy action
selection, the bootstrapped loss computation, and the evaluation driver,
together with theorems about them.

Conventions of the embedding:
* Scalars (rewards, q-values, gamma, epsilon) are rationals.
* Observations are an abstract type `σ`.
* The five parallel storage tensors of `ExperienceBuffer` become functions
  `Nat → _` updated pointwise, matching in-place tensor writes.
* Randomness (`np.random.choice`, `random.random`, `random.choice`) is
  parametrised by explicit oracles.
-/

namespace DqnModel

/-- Pointwise update of a storage array, modelling an in-place tensor
write `tensor[k] = v`. -/
def upd {α : Type} (f : Nat → α) (k : Nat) (v : α) : Nat → α :=
  fun n => if n = k then v else f n

/-- One transition passed to `ExperienceBuffer.store`
(`init_state, action, reward, next_state, next_terminal`). -/
structure Transition (σ : Type) where
  init_state : σ
  action : Nat
  reward : ℚ
  next_state : σ
  next_terminal : Bool

/-- State of `ExperienceBuffer`: five parallel arrays, the capacity
`size`, the `full` flag and the write cursor `i`. -/
structure ExperienceBuffer (σ : Type) where
  init_states : Nat → σ
  actions : Nat → Nat
  rewards : Nat → ℚ
  next_states : Nat → σ
  non_terminal : Nat → ℚ
  size : Nat
  full : Bool
  i : Nat

/-- `ExperienceBuffer.__init__`: zeroed arrays, `full = False`, `i = 0`.
The zero observation of the torch state tensors is passed in as `s0`. -/
def ExperienceBuffer.mk0 (σ : Type) (size : Nat) (s0 : σ) : ExperienceBuffer σ :=
  { init_states := fun _ => s0
    actions := fun _ => 0
    rewards := fun _ => 0
    next_states := fun _ => s0
    non_terminal := fun _ => 0
    size := size
    full := false
    i := 0 }

/-- The assertion `assert self.i < self.size` at the top of
`ExperienceBuffer.store`. -/
def ExperienceBuffer.storeAssert {σ : Type} (b : ExperienceBuffer σ) : Prop :=
  b.i < b.size

instance {σ : Type} (b : ExperienceBuffer σ) : Decidable b.storeAssert :=
  inferInstanceAs (Decidable (b.i < b.size))

/-- `ExperienceBuffer.store`: write the five fields at the cursor
(`non_terminal[i] = int(not next_terminal)`), advance the cursor, and on
wraparound set `full = True` and reset the cursor to 0. -/
def ExperienceBuffer.store {σ : Type} (b : ExperienceBuffer σ) (t : Transition σ) :
    ExperienceBuffer σ :=
  let b' : ExperienceBuffer σ :=
    { b with
      init_states := upd b.init_states b.i t.init_state
      actions := upd b.actions b.i t.action
      rewards := upd b.rewards b.i t.reward
      next_states := upd b.next_states b.i t.next_state
      non_terminal := upd b.non_terminal b.i (if t.next_terminal then 0 else 1) }
  if b.i + 1 = b.size then
    { b' with full := true, i := 0 }
  else
    { b' with i := b.i + 1 }

/-- Number of valid entries per the `full`/`i` invariant. -/
def ExperienceBuffer.validCount {σ : Type} (b : ExperienceBuffer σ) : Nat :=
  if b.full then b.size else b.i

/-- `np.arange(self.size) if self.full else np.arange(self.i)`. -/
def ExperienceBuffer.validIndexes {σ : Type} (b : ExperienceBuffer σ) : List Nat :=
  if b.full then List.range b.size else List.range b.i

/-- The five aligned sub-arrays returned by `ExperienceBuffer.sample`. -/
structure SampleBatch (σ : Type) where
  init_states : List σ
  actions : List Nat
  rewards : List ℚ
  next_states : List σ
  non_terminal : List ℚ

/-- `np.random.choice(pool, size=k, replace=False)`: the random outcome is
driven by the oracle `rng`; at each step one element of the remaining pool
is picked (position `rng step % pool.length`) and removed, so any draw
without replacement is a possible outcome and every outcome is one. -/
def choiceNoReplace (rng : Nat → Nat) : Nat → List Nat → List Nat
  | _, [] => []
  | 0, _ => []
  | k + 1, x :: xs =>
      let pool := x :: xs
      let j := rng k % pool.length
      pool.getD j 0 :: choiceNoReplace rng k (pool.eraseIdx j)

/-- `ExperienceBuffer.sample` without the final gather: the list of chosen
indices, `min(size, len(indexes))` of them. -/
def ExperienceBuffer.sampleChosen {σ : Type} (b : ExperienceBuffer σ) (rng : Nat → Nat)
    (size : Nat) : List Nat :=
  choiceNoReplace rng (min size b.validIndexes.length) b.validIndexes

/-- `ExperienceBuffer.sample`: clamp the batch size to the number of valid
indices, choose that many distinct indices, and gather the five arrays at
the chosen indices. -/
def ExperienceBuffer.sample {σ : Type} (b : ExperienceBuffer σ) (rng : Nat → Nat)
    (size : Nat) : SampleBatch σ :=
  let chosen := b.sampleChosen rng size
  { init_states := chosen.map b.init_states
    actions := chosen.map b.actions
    rewards := chosen.map b.rewards
    next_states := chosen.map b.next_states
    non_terminal := chosen.map b.non_terminal }

/-! Value networks. Observation tensors are flattened to `List ℚ`;
`nn.Linear` becomes an explicit weight matrix and bias; `nn.ReLU` / `F.relu`
act elementwise. -/

/-- Dot product of two vectors (truncating at the shorter). -/
def dot (u v : List ℚ) : ℚ := (List.zipWith (fun a b => a * b) u v).sum

/-- `nn.Linear(W, b)` applied to `x`: one output per weight row. -/
def linear (w : List (List ℚ)) (b : List ℚ) (x : List ℚ) : List ℚ :=
  (w.zip b).map (fun row => dot row.1 x + row.2)

/-- `nn.ReLU` / `F.relu` applied elementwise. -/
def reluList (l : List ℚ) : List ℚ := l.map (fun v => max v 0)

/-- `torch.max(xs, dim=1)` on one row: maximum of a nonempty list
(0 on the empty list, where torch would raise). -/
def maxTorch : List ℚ → ℚ
  | [] => 0
  | x :: xs => xs.foldl max x

/-- `torch.argmax` on one row: index of the first occurrence of the
maximum (0 on the empty list, where torch would raise). -/
def argmaxTorch : List ℚ → Nat
  | [] => 0
  | [_] => 0
  | x :: y :: ys => if x < maxTorch (y :: ys) then argmaxTorch (y :: ys) + 1 else 0

/-- Parameters of `QNetwork` (the vector variant): `fc1 = Linear(in, 32)`,
`fc2 = Linear(32, out)`. -/
structure QNetwork where
  fc1w : List (List ℚ)
  fc1b : List ℚ
  fc2w : List (List ℚ)
  fc2b : List ℚ

/-- `QNetwork.forward`: `fc2(relu(fc1(x)))`, no activation after the
final layer. -/
def QNetwork.forward (net : QNetwork) (x : List ℚ) : List ℚ :=
  linear net.fc2w net.fc2b (reluList (linear net.fc1w net.fc1b x))

/-- Parameters of `QNetworkAtari` (the visual variant). The two
convolutional layers are kept abstract (they are `nn.Conv2d` library
modules applied to image tensors); the two fully-connected layers are
explicit. -/
structure QNetworkAtari where
  conv1 : List ℚ → List ℚ
  conv2 : List ℚ → List ℚ
  fc1w : List (List ℚ)
  fc1b : List ℚ
  fc2w : List (List ℚ)
  fc2b : List ℚ

/-- `QNetworkAtari.forward`: normalize by dividing by 256, then
`relu(conv1)`, `relu(conv2)`, flatten (already flat here), `relu(fc1)`,
and `relu(fc2)` — the rectified-linear activation is applied after the
final fully-connected layer too. -/
def QNetworkAtari.forward (net : QNetworkAtari) (x : List ℚ) : List ℚ :=
  let x1 := x.map (fun p => p / 256)
  let x2 := reluList (net.conv1 x1)
  let x3 := reluList (net.conv2 x2)
  let x4 := reluList (linear net.fc1w net.fc1b x3)
  reluList (linear net.fc2w net.fc2b x4)

/-! The DQN agent. The q-network is abstracted to its `forward` function
`σ → List ℚ` so that both variants fit (the Learner and Policy only use
`forward`). Randomness oracles: `r` models `random.random()` (a value in
`[0, 1)`), `randIdx` models `random.choice(range(num_actions))`. -/

/-- `DQN.choose_action`: with probability `epsilon` (i.e. when the random
draw `r < epsilon`) a uniformly random action, otherwise
`torch.argmax(self.qnet.forward(obs))`. -/
def choose_action {σ : Type} (qnet : σ → List ℚ) (num_actions : Nat)
    (r : ℚ) (randIdx : Nat) (obs : σ) (epsilon : ℚ) : Nat :=
  if r < epsilon then randIdx % num_actions else argmaxTorch (qnet obs)

/-- Lines 150–152 of `DQN.qnet_loss`: per minibatch row,
`y = reward + non_terminal * gamma * max(qnet.forward(next_state))`. -/
def qnet_loss_ys {σ : Type} (gamma : ℚ) (qnet : σ → List ℚ) (d : SampleBatch σ) :
    List ℚ :=
  (d.next_states.zip (d.rewards.zip d.non_terminal)).map
    (fun row => row.2.1 + row.2.2 * gamma * maxTorch (qnet row.1))

/-- `F.one_hot(a, n)` as a rational vector. -/
def one_hot (n : Nat) (a : Nat) : List ℚ :=
  (List.range n).map (fun j => if j = a then (1 : ℚ) else 0)

/-- Lines 154–156 of `DQN.qnet_loss`: per row, mask the q-values of the
initial state with the one-hot of the taken action and sum, selecting the
q-value of the action actually taken. -/
def qnet_loss_qs {σ : Type} (qnet : σ → List ℚ) (num_actions : Nat)
    (d : SampleBatch σ) : List ℚ :=
  (d.init_states.zip d.actions).map
    (fun row => ((List.zipWith (fun m q => m * q) (one_hot num_actions row.2)
      (qnet row.1))).sum)

/-- `nn.MSELoss()`: mean of squared differences. -/
def mseLoss (p y : List ℚ) : ℚ :=
  ((List.zipWith (fun a b => (a - b) ^ 2) p y)).sum / p.length

/-- `DQN.qnet_loss` on an already-sampled minibatch `d`. -/
def qnet_loss {σ : Type} (gamma : ℚ) (qnet : σ → List ℚ) (num_actions : Nat)
    (d : SampleBatch σ) : ℚ :=
  mseLoss (qnet_loss_qs qnet num_actions d) (qnet_loss_ys gamma qnet d)

/-! The evaluation driver `DQN.evaluate`. The gym environment is an
abstract deterministic machine: `reset` yields the initial observation and
`step` maps an observation and action to (next observation, reward, done).
Episodes are fuel-bounded (the real loop runs until `done`). -/

/-- Abstract gym environment used by `DQN.evaluate`. -/
structure EvalEnv (σ : Type) where
  reset : σ
  step : σ → Nat → σ × ℚ × Bool

/-- One evaluation episode (the `while not done` loop of `DQN.evaluate`):
the action is chosen by `choose_action(obs, 0.05)` — the literal `0.05`
from line 172 of the source — the environment is stepped, and the reward
accumulated, until `done` or the fuel runs out. -/
def evalEpisode {σ : Type} (qnet : σ → List ℚ) (num_actions : Nat) (env : EvalEnv σ)
    (rOr : Nat → ℚ) (aOr : Nat → Nat) : Nat → σ → ℚ → ℚ
  | 0, _, tot => tot
  | fuel + 1, obs, tot =>
      let act := choose_action qnet num_actions (rOr fuel) (aOr fuel) obs (5 / 100)
      let res := env.step obs act
      if res.2.2 then tot + res.2.1
      else evalEpisode qnet num_actions env rOr aOr fuel res.1 (tot + res.2.1)

set_option linter.unusedVariables false in
/-- `DQN.evaluate(times, epsilon, render)`: runs `times` episodes and
collects the total reward of each. The `epsilon` parameter is accepted
(with default 0.05 in the source) but the body never reads it: action
selection uses the hardcoded `0.05`. -/
def DQN.evaluate {σ : Type} (qnet : σ → List ℚ) (num_actions : Nat) (env : EvalEnv σ)
    (fuel times : Nat) (epsilon : ℚ) (rOr : Nat → Nat → ℚ) (aOr : Nat → Nat → Nat) :
    List ℚ :=
  (List.range times).map (fun ep =>
    evalEpisode qnet num_actions env (rOr ep) (aOr ep) fuel env.reset 0)

/-! Autograd model for the loss computation, used to settle how gradients
flow through the bootstrap target. Scalars carry a derivative with respect
to a single network parameter θ (dual numbers); every torch op the loss
uses is interpreted on them exactly as autograd differentiates it. A
`detach` (which the source never calls) would zero the derivative part. -/

/-- A scalar of the autograd graph: value and derivative w.r.t. θ. -/
structure Dual where
  val : ℚ
  der : ℚ
deriving DecidableEq

instance : Add Dual := ⟨fun a b => ⟨a.val + b.val, a.der + b.der⟩⟩
instance : Sub Dual := ⟨fun a b => ⟨a.val - b.val, a.der - b.der⟩⟩
instance : Mul Dual := ⟨fun a b => ⟨a.val * b.val, a.der * b.val + a.val * b.der⟩⟩

/-- A constant of the graph (no gradient). -/
def Dual.const (c : ℚ) : Dual := ⟨c, 0⟩

/-- `tensor.detach()`: same value, gradient cut. The source's `qnet_loss`
never calls this. -/
def Dual.detach (a : Dual) : Dual := ⟨a.val, 0⟩

/-- `torch.max` on a row of graph scalars: the maximum value, with the
gradient flowing to the (first) maximal element, as autograd does. -/
def dmaxTorch : List Dual → Dual
  | [] => ⟨0, 0⟩
  | x :: xs => xs.foldl (fun a b => if a.val < b.val then b else a) x

/-- `DQN.qnet_loss` on a one-row minibatch, interpreted on the autograd
graph exactly as the source computes it: the target `y` is built from
`self.qnet.forward(next_states)` with NO detach, so `y` carries a
derivative. `qnetD` is the network's forward as a function of the
parameter θ and the observation; `mse` over one row is the squared
difference. -/
def qnet_lossAD {σ : Type} (gamma : ℚ) (qnetD : Dual → σ → List Dual)
    (init_state next_state : σ) (action : Nat) (reward nt : ℚ) (θ : Dual) : Dual :=
  let nextqs := qnetD θ next_state
  let maxq := dmaxTorch nextqs
  let y := Dual.const reward + Dual.const nt * Dual.const gamma * maxq
  let allqs := qnetD θ init_state
  let q := allqs.getD action ⟨0, 0⟩
  (q - y) * (q - y)

/-- The target `y` alone, as the source builds it (no detach). -/
def qnet_loss_yAD {σ : Type} (gamma : ℚ) (qnetD : Dual → σ → List Dual)
    (next_state : σ) (reward nt : ℚ) (θ : Dual) : Dual :=
  Dual.const reward + Dual.const nt * Dual.const gamma * dmaxTorch (qnetD θ next_state)

/-- Modelled from the spec: the same one-row loss but with the target
treated as a fixed constant before the backward pass ("treating `y` as a
fixed (non-differentiated) target"), i.e. with `y` detached. This is the
spec-side semantics, for comparison with `qnet_lossAD`. -/
def qnet_lossSemiAD {σ : Type} (gamma : ℚ) (qnetD : Dual → σ → List Dual)
    (init_state next_state : σ) (action : Nat) (reward nt : ℚ) (θ : Dual) : Dual :=
  let nextqs := qnetD θ next_state
  let maxq := dmaxTorch nextqs
  let y := Dual.detach (Dual.const reward + Dual.const nt * Dual.const gamma * maxq)
  let allqs := qnetD θ init_state
  let q := allqs.getD action ⟨0, 0⟩
  (q - y) * (q - y)

/-! Shared lemmas. -/

theorem Dual.add_val (a b : Dual) : (a + b).val = a.val + b.val := rfl

theorem Dual.add_der (a b : Dual) : (a + b).der = a.der + b.der := rfl

theorem Dual.sub_val (a b : Dual) : (a - b).val = a.val - b.val := rfl

theorem Dual.sub_der (a b : Dual) : (a - b).der = a.der - b.der := rfl

theorem Dual.mul_val (a b : Dual) : (a * b).val = a.val * b.val := rfl

theorem Dual.mul_der (a b : Dual) : (a * b).der = a.der * b.val + a.val * b.der := rfl

theorem Dual.const_val (c : ℚ) : (Dual.const c).val = c := rfl

theorem Dual.const_der (c : ℚ) : (Dual.const c).der = 0 := rfl

theorem Dual.detach_val (a : Dual) : a.detach.val = a.val := rfl

theorem Dual.detach_der (a : Dual) : a.detach.der = 0 := rfl

theorem ExperienceBuffer.store_size {σ : Type} (b : ExperienceBuffer σ) (t : Transition σ) :
    (b.store t).size = b.size := by
  unfold ExperienceBuffer.store
  by_cases hc : b.i + 1 = b.size <;> simp [hc]

theorem ExperienceBuffer.store_i_lt {σ : Type} (b : ExperienceBuffer σ) (t : Transition σ)
    (h1 : 1 ≤ b.size) (h : b.i < b.size) : (b.store t).i < b.size := by
  unfold ExperienceBuffer.store
  by_cases hc : b.i + 1 = b.size
  · simp [hc]
    omega
  · simp [hc]
    omega

theorem ExperienceBuffer.foldl_store_inv {σ : Type} (ts : List (Transition σ)) :
    ∀ b : ExperienceBuffer σ, 1 ≤ b.size → b.i < b.size →
      (ts.foldl ExperienceBuffer.store b).i < (ts.foldl ExperienceBuffer.store b).size ∧
        (ts.foldl ExperienceBuffer.store b).size = b.size := by
  induction ts with
  | nil => exact fun b _ h => ⟨h, rfl⟩
  | cons t ts ih =>
    intro b h1 h
    have hs := b.store_size t
    have hrec := ih (b.store t) (by rw [hs]; exact h1) (by rw [hs]; exact b.store_i_lt t h1 h)
    exact ⟨by simpa using hrec.1, by rw [List.foldl_cons, hrec.2, hs]⟩

theorem choiceNoReplace_nil (rng : Nat → Nat) (k : Nat) : choiceNoReplace rng k [] = [] := by
  cases k <;> rfl

theorem choiceNoReplace_zero (rng : Nat → Nat) (pool : List Nat) :
    choiceNoReplace rng 0 pool = [] := by
  cases pool <;> rfl

theorem choiceNoReplace_cons (rng : Nat → Nat) (k : Nat) (x : Nat) (xs : List Nat) :
    choiceNoReplace rng (k + 1) (x :: xs) =
      (x :: xs).getD (rng k % (x :: xs).length) 0 ::
        choiceNoReplace rng k ((x :: xs).eraseIdx (rng k % (x :: xs).length)) := rfl

theorem choiceNoReplace_length (rng : Nat → Nat) :
    ∀ (k : Nat) (pool : List Nat), k ≤ pool.length → (choiceNoReplace rng k pool).length = k
  | 0, pool, _ => by rw [choiceNoReplace_zero]; rfl
  | k + 1, [], h => by simp at h
  | k + 1, x :: xs, h => by
    rw [choiceNoReplace_cons, List.length_cons]
    congr 1
    apply choiceNoReplace_length
    have hj : rng k % (x :: xs).length < (x :: xs).length := Nat.mod_lt _ (by simp)
    rw [List.length_eraseIdx, if_pos hj]
    simp only [List.length_cons] at h ⊢
    omega

theorem choiceNoReplace_subset (rng : Nat → Nat) :
    ∀ (k : Nat) (pool : List Nat), ∀ x ∈ choiceNoReplace rng k pool, x ∈ pool
  | 0, pool, x, hx => by rw [choiceNoReplace_zero] at hx; simp at hx
  | k + 1, [], x, hx => by rw [choiceNoReplace_nil] at hx; simp at hx
  | k + 1, p :: ps, x, hx => by
    rw [choiceNoReplace_cons] at hx
    rcases List.mem_cons.mp hx with h | h
    · have hj : rng k % (p :: ps).length < (p :: ps).length := Nat.mod_lt _ (by simp)
      rw [h, List.getD_eq_getElem _ _ hj]
      exact List.getElem_mem hj
    · exact (List.eraseIdx_sublist (p :: ps) _).subset (choiceNoReplace_subset rng k _ x h)

theorem choiceNoReplace_nodup (rng : Nat → Nat) :
    ∀ (k : Nat) (pool : List Nat), pool.Nodup → (choiceNoReplace rng k pool).Nodup
  | 0, pool, _ => by rw [choiceNoReplace_zero]; exact List.nodup_nil
  | k + 1, [], _ => by rw [choiceNoReplace_nil]; exact List.nodup_nil
  | k + 1, p :: ps, h => by
    rw [choiceNoReplace_cons]
    have hj : rng k % (p :: ps).length < (p :: ps).length := Nat.mod_lt _ (by simp)
    refine List.nodup_cons.mpr ⟨?_, choiceNoReplace_nodup rng k _ (h.eraseIdx _)⟩
    intro hmem
    have hmem' : (p :: ps).getD (rng k % (p :: ps).length) 0 ∈
        (p :: ps).eraseIdx (rng k % (p :: ps).length) :=
      choiceNoReplace_subset rng k _ _ hmem
    rw [List.getD_eq_getElem _ _ hj] at hmem'
    rcases List.mem_eraseIdx_iff_getElem.mp hmem' with ⟨i, hi, hij, hieq⟩
    exact hij (h.getElem_inj_iff.mp hieq)

theorem ExperienceBuffer.validIndexes_length {σ : Type} (b : ExperienceBuffer σ) :
    b.validIndexes.length = b.validCount := by
  unfold ExperienceBuffer.validIndexes ExperienceBuffer.validCount
  split <;> simp

theorem ExperienceBuffer.mem_validIndexes {σ : Type} (b : ExperienceBuffer σ) (j : Nat) :
    j ∈ b.validIndexes ↔ j < b.validCount := by
  unfold ExperienceBuffer.validIndexes ExperienceBuffer.validCount
  split <;> exact List.mem_range

theorem ExperienceBuffer.validIndexes_nodup {σ : Type} (b : ExperienceBuffer σ) :
    b.validIndexes.Nodup := by
  unfold ExperienceBuffer.validIndexes
  split <;> exact List.nodup_range _

theorem ExperienceBuffer.sampleChosen_length {σ : Type} (b : ExperienceBuffer σ)
    (rng : Nat → Nat) (k : Nat) :
    (b.sampleChosen rng k).length = min k b.validCount := by
  unfold ExperienceBuffer.sampleChosen
  rw [choiceNoReplace_length rng _ _ (min_le_right _ _), b.validIndexes_length]

theorem foldl_max_max (l : List ℚ) : ∀ x y : ℚ, l.foldl max (max x y) = max x (l.foldl max y) := by
  induction l with
  | nil => intro x y; rfl
  | cons z zs ih =>
    intro x y
    rw [List.foldl_cons, List.foldl_cons, max_assoc, ih]

theorem maxTorch_cons (x y : ℚ) (ys : List ℚ) :
    maxTorch (x :: y :: ys) = max x (maxTorch (y :: ys)) := by
  show (y :: ys).foldl max x = max x (ys.foldl max y)
  rw [List.foldl_cons, foldl_max_max]

theorem le_maxTorch : ∀ (l : List ℚ), ∀ v ∈ l, v ≤ maxTorch l
  | [], v, hv => by simp at hv
  | [x], v, hv => by
    rw [List.mem_singleton] at hv
    rw [hv]
    exact le_refl x
  | x :: y :: ys, v, hv => by
    rw [maxTorch_cons]
    rcases List.mem_cons.mp hv with h | h
    · rw [h]; exact le_max_left _ _
    · exact le_trans (le_maxTorch (y :: ys) v h) (le_max_right _ _)

theorem getD_argmaxTorch : ∀ l : List ℚ, l ≠ [] → l.getD (argmaxTorch l) 0 = maxTorch l
  | [], h => absurd rfl h
  | [x], _ => rfl
  | x :: y :: ys, _ => by
    by_cases h : x < maxTorch (y :: ys)
    · rw [show argmaxTorch (x :: y :: ys) = argmaxTorch (y :: ys) + 1 from by
        rw [argmaxTorch]; rw [if_pos h]]
      rw [List.getD_cons_succ, getD_argmaxTorch (y :: ys) (by simp), maxTorch_cons,
        max_eq_right h.le]
    · rw [show argmaxTorch (x :: y :: ys) = 0 from by rw [argmaxTorch]; rw [if_neg h]]
      rw [List.getD_cons_zero, maxTorch_cons, max_eq_left (not_lt.mp h)]

/-! Claim theorems. -/

/-- C3: each `store` writes all five fields at the current cursor `i`,
leaves other indices untouched, then advances `i` modulo the capacity,
setting `full` on the first wraparound; e.g. with capacity 3, storing four
transitions with rewards 1, 2, 3, 4 leaves valid entries holding rewards
4, 2, 3 (index 0 overwritten in FIFO ring order) with `full = true`. -/
theorem C3_ring_buffer_step {σ : Type} (b : ExperienceBuffer σ) (t : Transition σ)
    (h : b.i < b.size) :
    ((b.store t).init_states b.i = t.init_state ∧
      (b.store t).actions b.i = t.action ∧
      (b.store t).rewards b.i = t.reward ∧
      (b.store t).next_states b.i = t.next_state ∧
      (b.store t).non_terminal b.i = (if t.next_terminal then (0 : ℚ) else 1)) ∧
    (b.store t).size = b.size ∧
    (b.store t).i = (b.i + 1) % b.size ∧
    ((b.store t).full = true ↔ (b.full = true ∨ b.i + 1 = b.size)) ∧
    (∀ j, j ≠ b.i → (b.store t).rewards j = b.rewards j ∧
      (b.store t).actions j = b.actions j) ∧
    (let bb := ((((ExperienceBuffer.mk0 Unit 3 ()).store ⟨(), 0, 1, (), false⟩).store
        ⟨(), 0, 2, (), false⟩).store ⟨(), 0, 3, (), false⟩).store ⟨(), 0, 4, (), false⟩;
      bb.rewards 0 = 4 ∧ bb.rewards 1 = 2 ∧ bb.rewards 2 = 3 ∧ bb.full = true ∧ bb.i = 1) := by
  refine ⟨?_, ?_, ?_, ?_, ?_, ?_⟩
  · unfold ExperienceBuffer.store
    by_cases hc : b.i + 1 = b.size <;> simp [hc, upd]
  · exact b.store_size t
  · unfold ExperienceBuffer.store
    by_cases hc : b.i + 1 = b.size
    · simp [hc, Nat.mod_self]
    · have hlt : b.i + 1 < b.size := Nat.lt_of_le_of_ne h hc
      simp [hc, Nat.mod_eq_of_lt hlt]
  · unfold ExperienceBuffer.store
    by_cases hc : b.i + 1 = b.size <;> simp [hc]
  · intro j hj
    unfold ExperienceBuffer.store
    by_cases hc : b.i + 1 = b.size <;> simp [hc, upd, hj]
  · exact ⟨by decide, by decide, by decide, by decide, by decide⟩

/-- C3 witness: a concrete store at cursor 0 of a capacity-2 buffer writes
the reward at index 0. -/
theorem C3_ring_buffer_step_witness :
    (ExperienceBuffer.mk0 Unit 2 ()).i < (ExperienceBuffer.mk0 Unit 2 ()).size ∧
    ((ExperienceBuffer.mk0 Unit 2 ()).store ⟨(), 3, 9, (), false⟩).rewards
      (ExperienceBuffer.mk0 Unit 2 ()).i = 9 :=
  ⟨by decide, (C3_ring_buffer_step (ExperienceBuffer.mk0 Unit 2 ())
    ⟨(), 3, 9, (), false⟩ (by decide)).1.2.2.1⟩

/-- C9: for every buffer built with capacity at least 1, after any
sequence of `store` calls the cursor satisfies the internal assertion
`i < size` at the top of `store` (and the capacity never changes), so
`store` is total in every reachable state. -/
theorem C9_store_assert_total {σ : Type} (size : Nat) (s0 : σ) (ts : List (Transition σ))
    (h : 1 ≤ size) :
    (ts.foldl ExperienceBuffer.store (ExperienceBuffer.mk0 σ size s0)).storeAssert ∧
    (ts.foldl ExperienceBuffer.store (ExperienceBuffer.mk0 σ size s0)).size = size := by
  obtain ⟨h1, h2⟩ := ExperienceBuffer.foldl_store_inv ts (ExperienceBuffer.mk0 σ size s0)
    (by exact h) (by exact h)
  exact ⟨h1, h2⟩

/-- C9 witness: three stores into a capacity-2 buffer leave the assertion
satisfied. -/
theorem C9_store_assert_total_witness :
    (1 : Nat) ≤ 2 ∧
    (([⟨(), 0, 1, (), false⟩, ⟨(), 0, 2, (), true⟩, ⟨(), 0, 3, (), false⟩] :
        List (Transition Unit)).foldl ExperienceBuffer.store
      (ExperienceBuffer.mk0 Unit 2 ())).storeAssert :=
  ⟨by decide, (C9_store_assert_total 2 () _ (by decide)).1⟩

/-- C4: `sample(k)` returns exactly `min(k, valid_count)` chosen indices,
without replacement (no duplicates), every chosen index lies in the valid
range, and the five returned arrays are gathered at the same chosen
indices (row-aligned). -/
theorem C4_sample_rows {σ : Type} (b : ExperienceBuffer σ) (rng : Nat → Nat) (k : Nat) :
    (b.sampleChosen rng k).length = min k b.validCount ∧
    (b.sampleChosen rng k).Nodup ∧
    (∀ j ∈ b.sampleChosen rng k, j < b.validCount) ∧
    b.sample rng k =
      { init_states := (b.sampleChosen rng k).map b.init_states
        actions := (b.sampleChosen rng k).map b.actions
        rewards := (b.sampleChosen rng k).map b.rewards
        next_states := (b.sampleChosen rng k).map b.next_states
        non_terminal := (b.sampleChosen rng k).map b.non_terminal } := by
  refine ⟨b.sampleChosen_length rng k, ?_, ?_, rfl⟩
  · exact choiceNoReplace_nodup rng _ _ b.validIndexes_nodup
  · intro j hj
    exact (b.mem_validIndexes j).mp (choiceNoReplace_subset rng _ _ j hj)

/-- C4 witness: sampling 5 from a buffer holding 2 valid entries; the
chosen index 0 is inside the valid range. -/
theorem C4_sample_rows_witness :
    0 ∈ (((ExperienceBuffer.mk0 Unit 3 ()).store ⟨(), 0, 1, (), false⟩).store
        ⟨(), 0, 2, (), false⟩).sampleChosen (fun _ => 0) 5 ∧
    0 < (((ExperienceBuffer.mk0 Unit 3 ()).store ⟨(), 0, 1, (), false⟩).store
        ⟨(), 0, 2, (), false⟩).validCount :=
  ⟨by decide, (C4_sample_rows (((ExperienceBuffer.mk0 Unit 3 ()).store
      ⟨(), 0, 1, (), false⟩).store ⟨(), 0, 2, (), false⟩) (fun _ => 0) 5).2.2.1 0
    (by decide)⟩

/-- C6: for every buffer state, every requested batch size and every
random draw, `sample` returns (it is total, never raising) with all five
arrays of length `min(k, valid_count)`; in particular a request larger
than the number of valid entries is clamped to that number, including
the case of 0 valid entries. -/
theorem C6_sample_clamps {σ : Type} (b : ExperienceBuffer σ) (rng : Nat → Nat) (k : Nat) :
    ((b.sample rng k).init_states.length = min k b.validCount ∧
      (b.sample rng k).actions.length = min k b.validCount ∧
      (b.sample rng k).rewards.length = min k b.validCount ∧
      (b.sample rng k).next_states.length = min k b.validCount ∧
      (b.sample rng k).non_terminal.length = min k b.validCount) ∧
    (b.validCount ≤ k → (b.sample rng k).rewards.length = b.validCount) ∧
    (b.validCount = 0 → (b.sample rng k).rewards.length = 0) := by
  have hlen : (b.sampleChosen rng k).length = min k b.validCount := b.sampleChosen_length rng k
  have hfive : (b.sample rng k).rewards.length = min k b.validCount := by
    unfold ExperienceBuffer.sample
    simpa using hlen
  refine ⟨⟨?_, ?_, hfive, ?_, ?_⟩, ?_, ?_⟩
  · unfold ExperienceBuffer.sample; simpa using hlen
  · unfold ExperienceBuffer.sample; simpa using hlen
  · unfold ExperienceBuffer.sample; simpa using hlen
  · unfold ExperienceBuffer.sample; simpa using hlen
  · intro hk; rw [hfive]; omega
  · intro h0; rw [hfive]; omega

/-- C6 witness: requesting 7 rows from an empty buffer returns 0 rows. -/
theorem C6_sample_clamps_witness :
    (ExperienceBuffer.mk0 Unit 3 ()).validCount = 0 ∧
    ((ExperienceBuffer.mk0 Unit 3 ()).sample (fun _ => 0) 7).rewards.length = 0 :=
  ⟨by decide, (C6_sample_clamps (ExperienceBuffer.mk0 Unit 3 ()) (fun _ => 0) 7).2.2
    (by decide)⟩

/-- C1: for every sampled minibatch row, the bootstrap target computed by
the loss operation equals
`reward + non_terminal * gamma * max(qnet.forward(next_state))`; and for
gamma = 1/2, reward = 1, non_terminal = 1, next value 10 the target is
exactly 6. -/
theorem C1_bootstrap_target {σ : Type} [Inhabited σ] (gamma : ℚ) (qnet : σ → List ℚ)
    (d : SampleBatch σ) (j : Nat) (hj : j < (qnet_loss_ys gamma qnet d).length) :
    (qnet_loss_ys gamma qnet d).getD j 0 =
      d.rewards.getD j 0 +
        d.non_terminal.getD j 0 * gamma *
          maxTorch (qnet (d.next_states.getD j default)) ∧
    qnet_loss_ys (1 / 2) (fun _ : Unit => [10]) ⟨[()], [0], [1], [()], [1]⟩ = [6] := by
  constructor
  · have hL : j < (d.next_states.zip (d.rewards.zip d.non_terminal)).length := by
      have h := hj
      unfold qnet_loss_ys at h
      simpa using h
    have h1 : j < d.next_states.length := by
      rw [List.length_zip] at hL
      exact lt_of_lt_of_le hL (min_le_left _ _)
    have h23 : j < (d.rewards.zip d.non_terminal).length := by
      rw [List.length_zip] at hL
      exact lt_of_lt_of_le hL (min_le_right _ _)
    have h2 : j < d.rewards.length := by
      rw [List.length_zip] at h23
      exact lt_of_lt_of_le h23 (min_le_left _ _)
    have h3 : j < d.non_terminal.length := by
      rw [List.length_zip] at h23
      exact lt_of_lt_of_le h23 (min_le_right _ _)
    rw [List.getD_eq_getElem _ _ hj, List.getD_eq_getElem _ _ h1,
      List.getD_eq_getElem _ _ h2, List.getD_eq_getElem _ _ h3]
    unfold qnet_loss_ys
    simp [List.getElem_map, List.getElem_zip]
  · unfold qnet_loss_ys
    simp [maxTorch]
    norm_num

/-- C1 witness: a one-row minibatch with gamma = 1/2, reward = 1,
non-terminal indicator 1 and next value 10 has bootstrap target 6. -/
theorem C1_bootstrap_target_witness :
    0 < (qnet_loss_ys (1 / 2) (fun _ : Unit => [10])
      ⟨[()], [0], [1], [()], [1]⟩).length ∧
    (qnet_loss_ys (1 / 2) (fun _ : Unit => [10]) ⟨[()], [0], [1], [()], [1]⟩).getD 0 0 =
      ([(1 : ℚ)] : List ℚ).getD 0 0 +
        ([(1 : ℚ)] : List ℚ).getD 0 0 * (1 / 2) *
          maxTorch ((fun _ : Unit => [10]) (([()] : List Unit).getD 0 default)) :=
  ⟨by simp [qnet_loss_ys], (C1_bootstrap_target (1 / 2) (fun _ : Unit => [10])
    ⟨[()], [0], [1], [()], [1]⟩ 0 (by simp [qnet_loss_ys])).1⟩

/-- C2: a transition stored with `next_terminal = true` has non-terminal
indicator 0, and the bootstrap target computed for that stored row equals
the reward alone, for every gamma and every value network; e.g. with
gamma = 99/100 and reward 5 the target is 5 whatever the next value is. -/
theorem C2_terminal_target {σ : Type} (b : ExperienceBuffer σ) (t : Transition σ)
    (gamma : ℚ) (qnet : σ → List ℚ) (ht : t.next_terminal = true) :
    (b.store t).non_terminal b.i = 0 ∧
    (b.store t).rewards b.i +
        (b.store t).non_terminal b.i * gamma *
          maxTorch (qnet ((b.store t).next_states b.i)) = t.reward ∧
    ∀ v : ℚ, qnet_loss_ys (99 / 100) (fun _ : Unit => [v]) ⟨[()], [0], [5], [()], [0]⟩
      = [5] := by
  have hnt : (b.store t).non_terminal b.i = 0 := by
    unfold ExperienceBuffer.store
    by_cases hc : b.i + 1 = b.size <;> simp [hc, upd, ht]
  have hr : (b.store t).rewards b.i = t.reward := by
    unfold ExperienceBuffer.store
    by_cases hc : b.i + 1 = b.size <;> simp [hc, upd]
  refine ⟨hnt, ?_, ?_⟩
  · rw [hnt, hr]
    ring
  · intro v
    unfold qnet_loss_ys
    simp [maxTorch]

/-- C2 witness: storing a terminal transition with reward 7 into a fresh
capacity-1 buffer writes non-terminal indicator 0 at the cursor, so its
bootstrap target is the reward 7 alone. -/
theorem C2_terminal_target_witness :
    ((ExperienceBuffer.mk0 Unit 1 ()).store ⟨(), 0, 7, (), true⟩).non_terminal 0 = 0 ∧
    ((ExperienceBuffer.mk0 Unit 1 ()).store ⟨(), 0, 7, (), true⟩).rewards 0 +
        ((ExperienceBuffer.mk0 Unit 1 ()).store ⟨(), 0, 7, (), true⟩).non_terminal 0 *
          (1 / 3) *
          maxTorch ((fun _ : Unit => [2])
            (((ExperienceBuffer.mk0 Unit 1 ()).store ⟨(), 0, 7, (), true⟩).next_states 0))
      = 7 :=
  ⟨(C2_terminal_target (ExperienceBuffer.mk0 Unit 1 ()) ⟨(), 0, 7, (), true⟩ (1 / 3)
      (fun _ => [2]) rfl).1,
    (C2_terminal_target (ExperienceBuffer.mk0 Unit 1 ()) ⟨(), 0, 7, (), true⟩ (1 / 3)
      (fun _ => [2]) rfl).2.1⟩

/-- C7: `choose_action` with epsilon 0 never takes the random branch
(`random.random()` is nonnegative) and returns `argmax(qnet.forward(obs))`,
the index of a maximum value of the evaluation; the result is a function
of the observation and network alone, hence deterministic for a fixed
network state. -/
theorem C7_greedy_argmax {σ : Type} (qnet : σ → List ℚ) (num_actions : Nat) (r : ℚ)
    (randIdx : Nat) (obs : σ) (hr : 0 ≤ r) :
    choose_action qnet num_actions r randIdx obs 0 = argmaxTorch (qnet obs) ∧
    ∀ v ∈ qnet obs, v ≤ (qnet obs).getD (argmaxTorch (qnet obs)) 0 := by
  constructor
  · unfold choose_action
    rw [if_neg (not_lt.mpr hr)]
  · intro v hv
    have hne : qnet obs ≠ [] := by
      intro hn
      rw [hn] at hv
      simp at hv
    rw [getD_argmaxTorch _ hne]
    exact le_maxTorch _ v hv

/-- C7 witness: on the q-values 1, 3, 2 the greedy choice is index 1, the
position of the maximum 3. -/
theorem C7_greedy_argmax_witness :
    (0 : ℚ) ≤ 0 ∧
    choose_action (fun _ : Unit => [1, 3, 2]) 3 0 0 () 0 =
      argmaxTorch ([1, 3, 2] : List ℚ) ∧
    (2 : ℚ) ≤ ([1, 3, 2] : List ℚ).getD (argmaxTorch ([1, 3, 2] : List ℚ)) 0 ∧
    argmaxTorch ([1, 3, 2] : List ℚ) = 1 :=
  ⟨le_refl 0,
    (C7_greedy_argmax (fun _ : Unit => [1, 3, 2]) 3 0 0 () (le_refl 0)).1,
    (C7_greedy_argmax (fun _ : Unit => [1, 3, 2]) 3 0 0 () (le_refl 0)).2 2 (by norm_num),
    by norm_num [argmaxTorch, maxTorch]⟩

/-- C8: the visual-variant network applies a rectified-linear activation
after its final fully-connected layer, so every action-value estimate it
returns is non-negative, for every parameter setting and every input. -/
theorem C8_atari_output_nonneg (net : QNetworkAtari) (x : List ℚ) :
    ∀ v ∈ net.forward x, 0 ≤ v := by
  intro v hv
  simp only [QNetworkAtari.forward, reluList] at hv
  rcases List.mem_map.mp hv with ⟨u, _, hu⟩
  rw [← hu]
  exact le_max_right u 0

/-- C8 witness: a concrete instantiation of the visual network maps the
input 0 to the action-value 0, which is non-negative. -/
theorem C8_atari_output_nonneg_witness :
    (0 : ℚ) ∈ QNetworkAtari.forward ⟨id, id, [[1]], [0], [[1]], [0]⟩ [0] ∧
    (0 : ℚ) ≤ 0 := by
  have h : (0 : ℚ) ∈ QNetworkAtari.forward ⟨id, id, [[1]], [0], [[1]], [0]⟩ [0] := by
    norm_num [QNetworkAtari.forward, reluList, linear, dot]
  exact ⟨h, C8_atari_output_nonneg _ _ 0 h⟩

/-- C10: `DQN.evaluate` ignores its `epsilon` parameter: two calls that
differ only in the epsilon argument are equal, and inside every episode
the action is selected by `choose_action(obs, 0.05)` with the hardcoded
constant 5/100. -/
theorem C10_evaluate_ignores_epsilon {σ : Type} (qnet : σ → List ℚ) (num_actions : Nat)
    (env : EvalEnv σ) (fuel times : Nat) (rOr : Nat → Nat → ℚ) (aOr : Nat → Nat → Nat)
    (eps1 eps2 : ℚ) :
    DQN.evaluate qnet num_actions env fuel times eps1 rOr aOr =
      DQN.evaluate qnet num_actions env fuel times eps2 rOr aOr ∧
    ∀ (f : Nat) (obs : σ) (tot : ℚ) (ra : Nat → ℚ) (aa : Nat → Nat),
      evalEpisode qnet num_actions env ra aa (f + 1) obs tot =
        (let act := choose_action qnet num_actions (ra f) (aa f) obs (5 / 100);
          let res := env.step obs act;
          if res.2.2 then tot + res.2.1
          else evalEpisode qnet num_actions env ra aa f res.1 (tot + res.2.1)) :=
  ⟨rfl, fun _ _ _ _ _ => rfl⟩

/-- C5: evaluated on the autograd model at the one-parameter network
`q(θ) = [θ]` with gamma = 1/2, reward = 0, a non-terminal transition and
θ = 1, the target `y` built by `qnet_loss` carries the nonzero derivative
1/2 (the source never detaches `self.qnet.forward(next_states)`), and the
gradient of the loss as coded (1/2) differs from the semi-gradient
obtained by treating `y` as a constant (1): gradients DO flow through the
target computation, refuting the claim at this input. -/
theorem C5_gradient_flows_through_target :
    (qnet_loss_yAD (1 / 2) (fun θ _ => [θ]) () 0 1 ⟨1, 1⟩).der = 1 / 2 ∧
    (qnet_lossAD (1 / 2) (fun θ _ => [θ]) () () 0 0 1 ⟨1, 1⟩).der = 1 / 2 ∧
    (qnet_lossSemiAD (1 / 2) (fun θ _ => [θ]) () () 0 0 1 ⟨1, 1⟩).der = 1 ∧
    (qnet_lossAD (1 / 2) (fun θ _ => [θ]) () () 0 0 1 ⟨1, 1⟩).der ≠
      (qnet_lossSemiAD (1 / 2) (fun θ _ => [θ]) () () 0 0 1 ⟨1, 1⟩).der := by
  refine ⟨?_, ?_, ?_, ?_⟩ <;>
    simp [qnet_lossAD, qnet_lossSemiAD, qnet_loss_yAD, dmaxTorch, Dual.mul_der,
      Dual.mul_val, Dual.add_der, Dual.add_val, Dual.sub_der, Dual.sub_val,
      Dual.const_val, Dual.const_der, Dual.detach_der, Dual.detach_val] <;>
    norm_num

end DqnModel
